import Mathlib

/-!
# marvin: the read loop, the setup phase and the url module

A shallow embedding of `main.go` and `modules/url/url.go`.

Go strings are modelled as lists of characters. Every index the program
computes falls next to an ASCII tag, so character offsets and byte offsets
select the same text. Errors are modelled by their message.
-/

namespace Marvin

/-- A Go `string`. -/
abbrev GoString := List Char

/-- A Go `error` value, identified by its message. -/
abbrev GoError := List Char

/-! ## Package `strings` -/

/-- Scan of `strings.Index`: the offset of the first place where `substr`
starts, counted from `i`, or `-1`. -/
def indexFrom (substr : GoString) : GoString → Nat → Int
  | [], i => if substr.isEmpty then (i : Int) else -1
  | c :: cs, i => if substr.isPrefixOf (c :: cs) then (i : Int) else indexFrom substr cs (i + 1)

/-- `strings.Index(s, substr)`: the index of the first instance of `substr`
in `s`, or `-1` if `substr` is not present. -/
def Index (s substr : GoString) : Int := indexFrom substr s 0

/-- `strings.Contains(s, substr)`, which is `Index(s, substr) >= 0`. -/
def Contains (s substr : GoString) : Bool := decide (0 ≤ Index s substr)

/-- Replacement scan of `strings.Replace` for a non-empty `old`: `n` is the
number of replacements still allowed (`none` for no limit) and `skip` the
number of characters of a matched `old` still to be consumed. Matches are
taken left to right and do not overlap. -/
def replaceGo (old new : GoString) : Option Nat → Nat → GoString → GoString
  | _, _, [] => []
  | n, skip + 1, _ :: cs => replaceGo old new n skip cs
  | n, 0, c :: cs =>
    if n ≠ some 0 ∧ old.isPrefixOf (c :: cs) = true then
      new ++ replaceGo old new (n.map (· - 1)) (old.length - 1) cs
    else c :: replaceGo old new n 0 cs

/-- `strings.Replace` for an empty `old`: `new` is inserted at the start of
the string and after each character, up to the limit. -/
def replaceEmpty (new : GoString) : Option Nat → GoString → GoString
  | some 0, s => s
  | _, [] => new
  | n, c :: cs => new ++ c :: replaceEmpty new (n.map (· - 1)) cs

/-- `strings.Replace(s, old, new, n)`: a copy of `s` with the first `n`
non-overlapping instances of `old` replaced by `new`; if `n < 0` there is no
limit on the number of replacements. -/
def Replace (s old new : GoString) (n : Int) : GoString :=
  let limit : Option Nat := if n < 0 then none else some n.toNat
  if old.isEmpty then replaceEmpty new limit s else replaceGo old new limit 0 s

/-- `unicode.IsSpace`: the characters with Unicode's White Space property. -/
def isSpace (c : Char) : Bool :=
  let n := c.toNat
  n = 0x09 || n = 0x0A || n = 0x0B || n = 0x0C || n = 0x0D || n = 0x20 || n = 0x85 || n = 0xA0 ||
    n = 0x1680 || (0x2000 ≤ n && n ≤ 0x200A) || n = 0x2028 || n = 0x2029 || n = 0x202F ||
    n = 0x205F || n = 0x3000

/-- `strings.TrimSpace(s)`: `s` with all leading and trailing white space
removed. -/
def TrimSpace (s : GoString) : GoString :=
  (s.dropWhile isSpace).rdropWhile isSpace

/-- `strings.Trim(s, cutset)`: `s` with all leading and trailing characters
contained in `cutset` removed. -/
def Trim (s cutset : GoString) : GoString :=
  if s.isEmpty || cutset.isEmpty then s
  else (s.dropWhile (fun c => decide (c ∈ cutset))).rdropWhile (fun c => decide (c ∈ cutset))

/-- `strings.Join(elems, sep)`: the elements concatenated with `sep` placed
between them. -/
def Join : List GoString → GoString → GoString
  | [], _ => []
  | [e], _ => e
  | e :: es, sep => e ++ sep ++ Join es sep

/-! ## `modules/url/url.go`: `sanitize` -/

/-- The loop of `sanitize`:
`for strings.Contains(normalized, "  ") { normalized = strings.Replace(normalized, "  ", " ", -1) }`,
run for at most `fuel` iterations. -/
def sanitizeLoop : Nat → GoString → GoString
  | 0, normalized => normalized
  | fuel + 1, normalized =>
    if Contains normalized "  ".toList then
      sanitizeLoop fuel (Replace normalized "  ".toList " ".toList (-1))
    else normalized

/-- `Module.sanitize`. Every iteration of the loop shortens the string, so
`len(title)` iterations are enough for the loop to leave through its
condition (`sanitizeLoop_done`). -/
def sanitize (title : GoString) : GoString :=
  let normalized := Replace title "\n".toList " ".toList (-1)
  let normalized := sanitizeLoop normalized.length normalized
  TrimSpace normalized

/-! ## Package `fmt` -/

/-- An operand of `fmt.Sprintf`: the program formats strings and ints only. -/
inductive Arg where
  | str (s : GoString)
  | int (n : Int)

/-- The type name `fmt` prints for an operand in its error notes. -/
def Arg.typeName : Arg → GoString
  | .str _ => "string".toList
  | .int _ => "int".toList

/-- The default (`%v`) rendering of an operand. -/
def Arg.value : Arg → GoString
  | .str s => s
  | .int n => (toString n).toList

/-- One verb of `fmt.Sprintf` applied to one operand; a verb that does not
fit the operand gives the note `%!verb(type=value)`. -/
def formatVerb (verb : Char) (a : Arg) : GoString :=
  match a with
  | .str s =>
    if verb = 's' ∨ verb = 'v' then s
    else '%' :: '!' :: verb :: '(' :: (a.typeName ++ '=' :: a.value ++ [')'])
  | .int _ =>
    if verb = 'd' ∨ verb = 'v' then a.value
    else '%' :: '!' :: verb :: '(' :: (a.typeName ++ '=' :: a.value ++ [')'])

/-- The note `fmt.Sprintf` appends for operands no verb consumed. -/
def extraArgs (args : List Arg) : GoString :=
  "%!(EXTRA ".toList ++
    ", ".toList.intercalate (args.map (fun a => a.typeName ++ '=' :: a.value)) ++ [')']

/-- `fmt.Sprintf(format, args...)` for verbs written without flags, width or
precision, which is how every format string of the program is written. -/
def Sprintf : GoString → List Arg → GoString
  | [], [] => []
  | [], a :: as => extraArgs (a :: as)
  | c :: fs, args =>
    if c ≠ '%' then c :: Sprintf fs args
    else
      match fs, args with
      | [], _ => "%!(NOVERB)".toList
      | v :: rest, [] =>
        if v = '%' then '%' :: Sprintf rest []
        else '%' :: '!' :: v :: ("(MISSING)".toList ++ Sprintf rest [])
      | v :: rest, a :: as =>
        if v = '%' then '%' :: Sprintf rest (a :: as)
        else formatVerb v a ++ Sprintf rest as

/-! ## What a Go call does besides returning -/

/-- The outcome of a Go call: it returns a value or it panics. -/
inductive Result (α : Type) where
  | ret (val : α)
  | panic (msg : GoString)
deriving DecidableEq

/-- `time.Second`, in nanoseconds (the unit of `time.Duration`). -/
def Second : Nat := 1000000000

/-- An observable step of a hook. -/
inductive Effect where
  | sleep (d : Nat)
  | write (line : GoString)
  | httpGet (url : GoString)
deriving DecidableEq

/-- A slice expression `s[lo:hi]`: it panics unless `0 <= lo <= hi <= len(s)`. -/
def slice (s : GoString) (lo hi : Int) : Result GoString :=
  if 0 ≤ lo ∧ lo ≤ hi ∧ hi ≤ (s.length : Int) then .ret ((s.take hi.toNat).drop lo.toNat)
  else .panic "slice bounds out of range".toList

/-! ## Package `irc`: the client (its source is not part of the two files) -/

/-- The established transport: the result of writing a line on it and the
results of the successive `ReadString('\n')` calls of the read loop. -/
structure Conn where
  send : GoString → Option GoError
  reads : List (GoString × Option GoError)

/-- Modelled from the spec: `irc.Message`, the value the parser produces for
a line; the source of package `irc` is missing. Fields as in the spec's data
model. -/
structure Message where
  Prefix : GoString
  Command : GoString
  Params : List GoString
  Data : GoString
  Receiver : GoString

/-- What running a hook does: its steps in order and how it ends. -/
abbrev HookRun := List Effect × Result (Option GoError)

/-- A hook, `func(c *irc.Client, m irc.Message) error`. The hooks of the
program use the client only to write, so a hook is given the connection. -/
abbrev Hook := Conn → Message → HookRun

/-- Modelled from the spec: `irc.Client`, the dispatcher, which owns the
connection and the hook registry (command key to hooks in registration
order); the source of package `irc` is missing. -/
structure Client where
  conn : Conn
  hooks : GoString → List Hook

/-- Modelled from the spec: `irc.NewClient`, a client with an empty registry;
the source of package `irc` is missing. -/
def NewClient (conn : Conn) : Client :=
  { conn := conn, hooks := fun _ => [] }

/-- Modelled from the spec: `Client.CmdHook` (the spec's `RegisterHook`),
which appends the hook to the ordered list of the command key; the source of
package `irc` is missing. -/
def Client.CmdHook (c : Client) (cmd : GoString) (hook : Hook) : Client :=
  { c with hooks := fun k => if k = cmd then c.hooks k ++ [hook] else c.hooks k }

/-- Modelled from the spec: `Client.Write`, which format-substitutes one
outbound line and sends it over the owned connection, returning the result
of the send; the source of package `irc` is missing. The step records the
line before the terminator is added. -/
def Client.Write (c : Conn) (format : GoString) (args : List Arg) :
    List Effect × Option GoError :=
  let line := Sprintf format args
  ([Effect.write line], c.send line)

/-- A Go channel of errors: its capacity and the values buffered in it. -/
structure Chan where
  cap : Nat
  buf : List GoError
deriving DecidableEq

/-- `make(chan error, cap)`; `make(chan error)` is `makeChan 0`. -/
def makeChan (cap : Nat) : Chan := { cap := cap, buf := [] }

/-- A send `ch <- v` (Go language specification, channel types): it proceeds
when a receiver is ready to take the value, or when the buffer has room;
otherwise it blocks, which is `none`. -/
def Chan.send (ch : Chan) (receiverReady : Bool) (v : GoError) : Option Chan :=
  if receiverReady ∧ ch.buf = [] then some ch
  else if ch.buf.length < ch.cap then some { ch with buf := ch.buf ++ [v] }
  else none

/-! ## `modules/url/url.go` -/

/-- The `http.Response` as `infoString` uses it: `Header.Get` and the result
of reading the body to its end with `ioutil.ReadAll`. -/
structure Response where
  Header : GoString → GoString
  Body : GoString × Option GoError

/-- A parsed URL as `urlCmd` uses it. -/
structure URL where
  Host : GoString
  String : GoString

/-- The standard-library functions the url module calls, taken as
parameters; `ρ` is `*regexp.Regexp`. -/
structure Lib (ρ : Type) where
  regexpCompile : GoString → Except GoError ρ
  findString : ρ → GoString → GoString
  urlParse : GoString → Except GoError URL
  httpGet : GoString → Except GoError Response
  parseMediaType : GoString → GoString × Option GoError
  unescapeEntities : GoString → GoString

/-- `headerError`. -/
def headerError : GoError := "missing content-type header".toList

/-- `extractError`. -/
def extractError : GoError := "couldn't extract title".toList

/-- `type Module struct`; `re` is `none` while the pointer is nil. -/
structure Module (ρ : Type) where
  re : Option ρ
  Regex : GoString
  Exclude : List GoString

/-- `Module.Name`. -/
def Module.Name {ρ : Type} (_ : Module ρ) : GoString := "url".toList

/-- `Module.Help`. -/
def Module.Help {ρ : Type} (_ : Module ρ) : GoString :=
  "Displays HTML titles for HTTP links.".toList

/-- `Module.isExcluded`. -/
def Module.isExcluded {ρ : Type} (m : Module ρ) (host : GoString) : Bool :=
  m.Exclude.any (fun h => decide (host = h))

/-- `html.UnescapeString`: a string without `&` is returned as it is; the
entity table is behind `unescapeEntities`. -/
def UnescapeString {ρ : Type} (lib : Lib ρ) (s : GoString) : GoString :=
  if Index s "&".toList < 0 then s else lib.unescapeEntities s

/-- A literal of the pattern matched at the start of `s` under flag `i`.
The literals here are lower-case ASCII with no `k` or `s`, so a character
folds onto a literal character exactly when its ASCII lower case is that
character. -/
def foldPrefix : GoString → GoString → Bool
  | [], _ => true
  | _ :: _, [] => false
  | a :: as, b :: bs => a == b.toLower && foldPrefix as bs

/-- The greedy `(.+)</title>` of the pattern: among the places of `s` (the
first of which is at offset `j`) where the closing tag matches, the last. -/
def lastClose : GoString → Nat → Option Nat
  | [], _ => none
  | c :: cs, j =>
    match lastClose cs (j + 1) with
    | some k => some k
    | none => if foldPrefix "</title>".toList (c :: cs) then some j else none

/-- The pattern `(?is)<title>(.+)</title>` tried at the start of `s`: the
opening tag, at least one character (any, line breaks included), and the
closing tag as far right as it matches. -/
def matchAt (s : GoString) : Option GoString :=
  if foldPrefix "<title>".toList s then
    match s.drop 7 with
    | [] => none
    | _ :: rest => (lastClose rest 1).map (fun j => s.take (7 + j + 8))
  else none

/-- The call `regexp.MustCompile("(?is)<title>(.+)</title>").Find(data)`: the
leftmost match, `nil` (the empty string) when there is none. -/
def titleFind : GoString → GoString
  | [] => []
  | c :: cs =>
    match matchAt (c :: cs) with
    | some m => m
    | none => titleFind cs

/-- `Module.extractTitle`, given the result of `ioutil.ReadAll(body)`. -/
def extractTitle {ρ : Type} (lib : Lib ρ) (body : GoString × Option GoError) :
    Result (GoString × Option GoError) :=
  let (data, err) := body
  if err ≠ none then .ret ([], err)
  else
    let mtch := titleFind data
    if mtch.length ≤ 0 then .ret ([], some extractError)
    else
      let title := mtch
      match slice title ("<title>".toList.length) (Index title "</title>".toList) with
      | .panic msg => .panic msg
      | .ret title =>
        let title := sanitize (UnescapeString lib title)
        if title.length ≤ 0 then .ret ([], some extractError)
        else .ret (title, none)

/-- `Module.infoString`. -/
def infoString {ρ : Type} (lib : Lib ρ) (resp : Response) :
    Result (GoString × Option GoError) :=
  let ctype := resp.Header "Content-Type".toList
  if ctype.length ≤ 0 then .ret ([], some headerError)
  else
    let (mtype, err) := lib.parseMediaType ctype
    if err ≠ none then .ret ([], err)
    else
      let info := Sprintf "URL -- Type: %s".toList [.str mtype]
      let csize := resp.Header "Content-Length".toList
      let info :=
        if csize.length > 0 then Sprintf "%s. Size: %s bytes".toList [.str info, .str csize]
        else info
      if mtype = "text/html".toList then
        match extractTitle lib resp.Body with
        | .panic msg => .panic msg
        | .ret (title, err) =>
          if err = none then .ret (Sprintf "%s. Title: %s".toList [.str info, .str title], none)
          else .ret (info, none)
      else .ret (info, none)

/-- `Module.urlCmd`. -/
def urlCmd {ρ : Type} (lib : Lib ρ) (m : Module ρ) : Hook := fun client msg =>
  match m.re with
  | none => ([], .panic "invalid memory address or nil pointer dereference".toList)
  | some re =>
    let link := lib.findString re msg.Data
    if link.length ≤ 0 then ([], .ret none)
    else
      match lib.urlParse link with
      | .error _ => ([], .ret none)
      | .ok purl =>
        if m.isExcluded purl.Host then ([], .ret none)
        else
          match lib.httpGet purl.String with
          | .error err => ([.httpGet purl.String], .ret (some err))
          | .ok resp =>
            match infoString lib resp with
            | .panic msg => ([.httpGet purl.String], .panic msg)
            | .ret (info, err) =>
              if err ≠ none then ([.httpGet purl.String], .ret err)
              else
                let (steps, res) :=
                  Client.Write client "NOTICE %s :%s".toList [.str msg.Receiver, .str info]
                (.httpGet purl.String :: steps, .ret res)

/-- `Module.Load`: the module and the client after the call, and the error
returned. -/
def Module.Load {ρ : Type} (lib : Lib ρ) (m : Module ρ) (client : Client) :
    Module ρ × Client × Option GoError :=
  match lib.regexpCompile m.Regex with
  | .error err => (m, client, some err)
  | .ok re =>
    let m := { m with re := some re }
    let client := client.CmdHook "privmsg".toList (urlCmd lib m)
    (m, client, none)

/-! ## `main.go` -/

/-- Modelled from the spec: the configuration value (`type config`), whose
declaration is in a file that is missing: host, port, channel list,
nickname, display name, certificate paths and the raw per-module
configuration. Field names as `main.go` uses them. -/
structure Config where
  Host : GoString
  Port : Int
  Chan : List GoString
  Nick : GoString
  Name : GoString
  Cert : GoString
  ClientCert : GoString
  ClientKey : GoString
  Conf : List (GoString × GoString)

/-- Modelled from the spec: `modules.ModuleSet`, which holds the client, the
raw configuration and the registered modules (`μ`); the source of package
`modules` is missing. -/
structure ModuleSet (μ : Type) where
  client : Client
  conf : List (GoString × GoString)
  modules : List μ

/-- Modelled from the spec: `modules.NewModuleSet`, a module set with no
module registered; the source of package `modules` is missing. -/
def NewModuleSet {μ : Type} (client : Client) (conf : List (GoString × GoString)) :
    ModuleSet μ :=
  { client := client, conf := conf, modules := [] }

/-- The `tls.Config` that `connect` builds. -/
structure TLSConfig where
  RootCAs : List GoString
  Certificates : List GoString

/-- What `main.go` takes from outside: the command line, the file system and
the network, and the parts of the program whose source is missing
(`readConfig`, `moduleInits`, `Client.Setup`, `ModuleSet.LoadAll`). -/
structure Env (μ : Type) where
  conf : GoString
  verb : Bool
  readConfig : GoString → Config × Option GoError
  isNotExist : GoError → Bool
  readFile : GoString → Except GoError GoString
  loadX509KeyPair : GoString → GoString → Except GoError GoString
  tlsDial : GoString → GoString → TLSConfig → Except GoError Conn
  netDial : GoString → GoString → Except GoError Conn
  moduleInits : List (ModuleSet μ → ModuleSet μ)
  Setup : Client → GoString → GoString → GoString → Client × List Effect
  LoadAll : ModuleSet μ → ModuleSet μ × Option GoError

/-- The function literal that `setup` registers under `"001"`. -/
def welcomeHook (config : Config) : Hook := fun c _ =>
  let slept := [Effect.sleep (3 * Second)]
  let (steps, res) := Client.Write c "JOIN %s".toList [.str (Join config.Chan ",".toList)]
  (slept ++ steps, .ret res)

/-- The first part of `setup`, up to and including `client.Setup(...)`: the
module set on which `LoadAll` is then called (it holds the client by
pointer) and the steps of `client.Setup`. -/
def setupModuleSet {μ : Type} (env : Env μ) (conn : Conn) (config : Config) :
    ModuleSet μ × List Effect :=
  let client := NewClient conn
  let client := client.CmdHook "001".toList (welcomeHook config)
  let moduleSet : ModuleSet μ := NewModuleSet client config.Conf
  let moduleSet := env.moduleInits.foldl (fun ms fn => fn ms) moduleSet
  let (client, steps) := env.Setup moduleSet.client config.Nick config.Name config.Host
  ({ moduleSet with client := client }, steps)

/-- `setup`: the client, the steps of `client.Setup`, and the error returned,
which is that of `moduleSet.LoadAll()`. The client returned is the one the
module set holds after `LoadAll`. -/
def setup {μ : Type} (env : Env μ) (conn : Conn) (config : Config) :
    Client × List Effect × Option GoError :=
  let (moduleSet, steps) := setupModuleSet env conn config
  let (moduleSet, err) := env.LoadAll moduleSet
  (moduleSet.client, steps, err)

/-- `connect`. -/
def connect {μ : Type} (env : Env μ) (config : Config) : Except GoError Conn :=
  let netw := "tcp".toList
  let addr := Sprintf "%s:%d".toList [.str config.Host, .int config.Port]
  if config.Cert.length ≥ 1 then
    match env.readFile config.Cert with
    | .error err => .error err
    | .ok certFile =>
      let tlsConfig : TLSConfig := { RootCAs := [certFile], Certificates := [] }
      if config.ClientCert.length ≥ 1 ∧ config.ClientKey.length ≥ 1 then
        match env.loadX509KeyPair config.ClientCert config.ClientKey with
        | .error err => .error err
        | .ok clientCert => env.tlsDial netw addr { tlsConfig with Certificates := [clientCert] }
      else env.tlsDial netw addr tlsConfig
  else env.netDial netw addr

/-- What `main` does, as seen from outside. -/
inductive Event where
  | fatal (err : GoError)
  | logged (err : GoError)
  | step (e : Effect)
  | read (line : GoString) (err : Option GoError)
  | printed (line : GoString)
  | handle (line : GoString) (errChan : Chan)
  | closed
deriving DecidableEq

/-- `io.EOF`, which the reader returns once the transport has nothing more. -/
def EOF : GoError := "EOF".toList

/-- The read loop of `main`, over the results of the successive
`reader.ReadString('\n')` calls; a transport with no result left reports
`io.EOF`. `Handle` is in package `irc`; each call of it is recorded and
taken to return. -/
def readLoop (verb : Bool) (errChan : Chan) : List (GoString × Option GoError) → List Event
  | [] => [.read [] (some EOF), .logged EOF]
  | (line, some err) :: _ => [.read line (some err), .logged err]
  | (line, none) :: rest =>
    let trimmed := Trim (Trim line "\n".toList) "\r".toList
    .read line none :: ((if verb then [.printed trimmed] else []) ++
      .handle trimmed errChan :: readLoop verb errChan rest)

/-- `main`, as the sequence of what it does. `logger.Fatal` ends the
process; the goroutine that drains `errChan` is not part of the sequence. -/
def main {μ : Type} (env : Env μ) : List Event :=
  let (config, err) := env.readConfig env.conf
  match err.filter (fun e => !env.isNotExist e) with
  | some e => [.fatal e]
  | none =>
    match connect env config with
    | .error err => [.fatal err]
    | .ok conn =>
      let errChan := makeChan 0
      match setup env conn config with
      | (_, steps, some err) => steps.map .step ++ [.fatal err]
      | (_, steps, none) => steps.map .step ++ readLoop env.verb errChan conn.reads ++ [.closed]

/-! ## Reading a sequence of events -/

/-- The lines passed to `Handle`, in order. -/
def handled (evs : List Event) : List GoString :=
  evs.filterMap (fun ev => match ev with | .handle line _ => some line | _ => none)

/-- The number of `ReadString` calls made. -/
def readCalls (evs : List Event) : Nat :=
  evs.countP (fun ev => match ev with | .read _ _ => true | _ => false)

/-- The channels passed to `Handle`, in order. -/
def handleChans (evs : List Event) : List Chan :=
  evs.filterMap (fun ev => match ev with | .handle _ ch => some ch | _ => none)

/-- The module loading and `client.Setup` of an environment never remove a
hook: each leaves every registered list as a prefix of the list after it. -/
def Env.KeepsHooks {μ : Type} (env : Env μ) : Prop :=
  (∀ fn ∈ env.moduleInits, ∀ (ms : ModuleSet μ) (k : GoString),
      ms.client.hooks k <+: (fn ms).client.hooks k) ∧
  (∀ (c : Client) (nick name host k : GoString), c.hooks k <+: (env.Setup c nick name host).1.hooks k) ∧
  (∀ (ms : ModuleSet μ) (k : GoString), ms.client.hooks k <+: (env.LoadAll ms).1.client.hooks k)

/-! ## Concrete inputs -/

/-- A configuration with the two channels `#a` and `#b`. -/
def sampleConfig : Config :=
  { Host := "irc.example.org".toList, Port := 6667, Chan := ["#a".toList, "#b".toList],
    Nick := "marvin".toList, Name := "marvin".toList, Cert := [], ClientCert := [],
    ClientKey := [], Conf := [] }

/-- A connection on which every write succeeds and which delivers a line
with a leading carriage return, a plain line, and then fails. -/
def sampleConn : Conn :=
  { send := fun _ => none,
    reads := [("\rPING :a\r\n".toList, none), ("PING :b\r\n".toList, none),
      ("PI".toList, some "connection reset".toList), ("PING :c\r\n".toList, none)] }

/-- An environment with no module, in which everything succeeds. -/
def sampleEnv : Env Unit :=
  { conf := "marvin.json".toList, verb := false,
    readConfig := fun _ => (sampleConfig, none),
    isNotExist := fun _ => false,
    readFile := fun _ => .ok [],
    loadX509KeyPair := fun _ _ => .ok [],
    tlsDial := fun _ _ _ => .ok sampleConn,
    netDial := fun _ _ => .ok sampleConn,
    moduleInits := [],
    Setup := fun c _ _ _ => (c, []),
    LoadAll := fun ms => (ms, none) }

/-- The same environment, except that `LoadAll` fails. -/
def failingEnv : Env Unit :=
  { sampleEnv with LoadAll := fun ms => (ms, some "error parsing regexp".toList) }

/-- Standard-library functions that behave as the real ones on the inputs
used below: only the pattern `a+` compiles, `text/html` parses to itself and
nothing holds an entity. -/
def sampleLib : Lib Unit :=
  { regexpCompile := fun p =>
      if p = "a+".toList then .ok () else .error "error parsing regexp".toList,
    findString := fun _ _ => [],
    urlParse := fun u => .ok { Host := u, String := u },
    httpGet := fun _ => .error "no such host".toList,
    parseMediaType := fun c => (c, none),
    unescapeEntities := fun s => s }

/-- An HTML response with the given body and no `Content-Length`. -/
def htmlResponse (body : GoString) : Response :=
  { Header := fun k => if k = "Content-Type".toList then "text/html".toList else [],
    Body := (body, none) }

/-! ## Facts about the string functions -/

theorem replaceGo_skip (old new : GoString) (n : Option Nat) (s : GoString) (k : Nat) :
    replaceGo old new n k s = replaceGo old new n 0 (s.drop k) := by
  induction s generalizing k with
  | nil => cases k <;> simp [replaceGo]
  | cons c cs ih =>
    cases k with
    | zero => rfl
    | succ k => simp only [replaceGo, List.drop_succ_cons]; exact ih k

theorem mem_replaceGo (old new : GoString) (n : Option Nat) (k : Nat) (s : GoString) (x : Char)
    (hx : x ∈ replaceGo old new n k s) : x ∈ s ∨ x ∈ new := by
  induction s generalizing n k with
  | nil => simp [replaceGo] at hx
  | cons c cs ih =>
    cases k with
    | succ k =>
      simp only [replaceGo] at hx
      rcases ih _ _ hx with h | h
      · exact Or.inl (List.mem_cons_of_mem _ h)
      · exact Or.inr h
    | zero =>
      simp only [replaceGo] at hx
      split at hx
      · rcases List.mem_append.mp hx with h | h
        · exact Or.inr h
        · rcases ih _ _ h with h | h
          · exact Or.inl (List.mem_cons_of_mem _ h)
          · exact Or.inr h
      · rcases List.mem_cons.mp hx with h | h
        · exact Or.inl (h ▸ List.mem_cons_self _ _)
        · rcases ih _ _ h with h | h
          · exact Or.inl (List.mem_cons_of_mem _ h)
          · exact Or.inr h

theorem indexFrom_nonneg_iff (p s : GoString) (i : Nat) :
    0 ≤ indexFrom p s i ↔ p <:+: s := by
  induction s generalizing i with
  | nil =>
    cases p with
    | nil => simp [indexFrom]
    | cons a as => simp [indexFrom]
  | cons c cs ih =>
    simp only [indexFrom]
    by_cases h : p.isPrefixOf (c :: cs) = true
    · rw [if_pos h]
      constructor
      · intro _; exact (List.isPrefixOf_iff_prefix.mp h).isInfix
      · intro _; exact Int.ofNat_nonneg i
    · rw [if_neg h, ih (i + 1), List.infix_cons_iff]
      constructor
      · intro h2; exact Or.inr h2
      · rintro (h2 | h2)
        · exact absurd (List.isPrefixOf_iff_prefix.mpr h2) h
        · exact h2

theorem Contains_iff (s p : GoString) : Contains s p = true ↔ p <:+: s := by
  simp [Contains, Index, indexFrom_nonneg_iff]

theorem Contains_cons_of_not_prefix (p : GoString) (c : Char) (cs : GoString)
    (h : ¬ p.isPrefixOf (c :: cs) = true) : Contains (c :: cs) p = Contains cs p := by
  rw [Bool.eq_iff_iff, Contains_iff, Contains_iff, List.infix_cons_iff]
  constructor
  · rintro (h2 | h2)
    · exact absurd (List.isPrefixOf_iff_prefix.mpr h2) h
    · exact h2
  · intro h2; exact Or.inr h2

theorem Replace_all (s old new : GoString) (h : old ≠ []) :
    Replace s old new (-1) = replaceGo old new none 0 s := by
  cases old with
  | nil => exact absurd rfl h
  | cons a as => simp [Replace]

theorem replaceGo_cons (old new : GoString) (c : Char) (cs : GoString) :
    replaceGo old new none 0 (c :: cs) =
      if old.isPrefixOf (c :: cs) = true then
        new ++ replaceGo old new none 0 (cs.drop (old.length - 1))
      else c :: replaceGo old new none 0 cs := by
  simp only [replaceGo, Option.map_none']
  rw [replaceGo_skip]
  simp

theorem length_replaceGo_le (old new : GoString) (hlen : new.length ≤ old.length) :
    ∀ (n : Nat) (s : GoString), s.length ≤ n →
      (replaceGo old new none 0 s).length ≤ s.length := by
  intro n
  induction n with
  | zero =>
    intro s hs
    have : s = [] := List.length_eq_zero.mp (Nat.le_zero.mp hs)
    subst this; simp [replaceGo]
  | succ n ih =>
    intro s hs
    cases s with
    | nil => simp [replaceGo]
    | cons c cs =>
      rw [replaceGo_cons]
      simp only [List.length_cons] at hs
      split
      · rename_i hp
        have hpl := (List.isPrefixOf_iff_prefix.mp hp).length_le
        have h1 := ih (cs.drop (old.length - 1)) (by rw [List.length_drop]; omega)
        rw [List.length_drop] at h1
        simp only [List.length_append, List.length_cons] at *
        omega
      · have h1 := ih cs (by omega)
        simp only [List.length_cons]
        omega

theorem length_replaceGo_lt (old new : GoString) (hlen : new.length < old.length)
    (s : GoString) (hs : old <:+: s) :
    (replaceGo old new none 0 s).length < s.length := by
  induction s with
  | nil =>
    have := hs.length_le
    simp only [List.length_nil] at this
    omega
  | cons c cs ih =>
    rw [replaceGo_cons]
    split
    · rename_i hp
      have hpl := (List.isPrefixOf_iff_prefix.mp hp).length_le
      have h1 := length_replaceGo_le old new (Nat.le_of_lt hlen) _ (cs.drop (old.length - 1))
        (Nat.le_refl _)
      rw [List.length_drop] at h1
      simp only [List.length_append, List.length_cons] at *
      omega
    · rename_i hp
      rcases List.infix_cons_iff.mp hs with h2 | h2
      · exact absurd (List.isPrefixOf_iff_prefix.mpr h2) hp
      · have := ih h2
        simp only [List.length_cons]
        omega

/-- The loop of `sanitize` leaves through its condition: with as many
iterations allowed as the string is long, the result holds no two
consecutive spaces. -/
theorem sanitizeLoop_done (fuel : Nat) (s : GoString) (h : s.length ≤ fuel) :
    Contains (sanitizeLoop fuel s) "  ".toList = false := by
  induction fuel generalizing s with
  | zero =>
    have : s = [] := List.length_eq_zero.mp (Nat.le_zero.mp h)
    subst this; decide
  | succ fuel ih =>
    simp only [sanitizeLoop]
    split
    · rename_i hc
      apply ih
      rw [Replace_all _ _ _ (by decide)]
      have := length_replaceGo_lt "  ".toList " ".toList (by decide) s ((Contains_iff _ _).mp hc)
      omega
    · rename_i hc
      simpa using hc

theorem sanitizeLoop_fixed (fuel : Nat) (s : GoString) (h : Contains s "  ".toList = false) :
    sanitizeLoop fuel s = s := by
  cases fuel with
  | zero => rfl
  | succ fuel => simp only [sanitizeLoop]; rw [if_neg (by rw [h]; decide)]

theorem mem_sanitizeLoop (fuel : Nat) (s : GoString) (x : Char)
    (hx : x ∈ sanitizeLoop fuel s) : x ∈ s ∨ x = ' ' := by
  induction fuel generalizing s with
  | zero => exact Or.inl hx
  | succ fuel ih =>
    simp only [sanitizeLoop] at hx
    split at hx
    · rcases ih _ hx with h | h
      · rw [Replace_all _ _ _ (by decide)] at h
        rcases mem_replaceGo _ _ _ _ _ _ h with h2 | h2
        · exact Or.inl h2
        · exact Or.inr (by simpa using h2)
      · exact Or.inr h
    · exact Or.inl hx

theorem newline_not_mem_replace (s : GoString) :
    '\n' ∉ replaceGo "\n".toList " ".toList none 0 s := by
  induction s with
  | nil => simp [replaceGo]
  | cons c cs ih =>
    rw [replaceGo_cons]
    split
    · intro h
      rcases List.mem_append.mp h with h2 | h2
      · revert h2; decide
      · exact ih (by simpa using h2)
    · rename_i hp
      intro h
      rcases List.mem_cons.mp h with h2 | h2
      · apply hp; rw [← h2]; simp [List.isPrefixOf]
      · exact ih h2

theorem replace_newline_fixed (s : GoString) (h : '\n' ∉ s) :
    replaceGo "\n".toList " ".toList none 0 s = s := by
  induction s with
  | nil => simp [replaceGo]
  | cons c cs ih =>
    rw [replaceGo_cons]
    have hc : c ≠ '\n' := fun e => h (e ▸ List.mem_cons_self _ _)
    have hcs : '\n' ∉ cs := fun e => h (List.mem_cons_of_mem _ e)
    rw [if_neg, ih hcs]
    simp [List.isPrefixOf, hc.symm]

theorem TrimSpace_within (s : GoString) : TrimSpace s <:+: s :=
  (List.rdropWhile_prefix isSpace (s.dropWhile isSpace)).isInfix.trans
    (List.dropWhile_suffix isSpace).isInfix

theorem TrimSpace_head (s : GoString) (c : Char) (h : (TrimSpace s).head? = some c) :
    isSpace c = false := by
  unfold TrimSpace at h
  obtain ⟨t, ht⟩ := List.rdropWhile_prefix isSpace (s.dropWhile isSpace)
  have h1 := List.head?_dropWhile_not isSpace s
  rw [← ht] at h1
  cases hr : List.rdropWhile isSpace (s.dropWhile isSpace) with
  | nil => rw [hr] at h; simp at h
  | cons a as =>
    rw [hr] at h h1
    simp only [List.head?_cons, Option.some.injEq, List.cons_append] at h h1
    rw [← h]; exact h1

theorem TrimSpace_last (s : GoString) (c : Char) (h : (TrimSpace s).getLast? = some c) :
    isSpace c = false := by
  unfold TrimSpace at h
  have hne : List.rdropWhile isSpace (s.dropWhile isSpace) ≠ [] := by
    intro e; rw [e] at h; simp at h
  have h1 := List.rdropWhile_last_not isSpace (s.dropWhile isSpace) hne
  rw [List.getLast?_eq_getLast _ hne] at h
  simp only [Option.some.injEq] at h
  rw [← h]; simpa using h1

theorem TrimSpace_fixed (s : GoString)
    (hh : ∀ c, s.head? = some c → isSpace c = false)
    (hl : ∀ c, s.getLast? = some c → isSpace c = false) : TrimSpace s = s := by
  unfold TrimSpace
  have h1 : s.dropWhile isSpace = s := by
    cases s with
    | nil => rfl
    | cons a as =>
      have := hh a rfl
      simp [List.dropWhile_cons, this]
  rw [h1, List.rdropWhile_eq_self_iff]
  intro hne
  have := hl _ (List.getLast?_eq_getLast _ hne)
  simp [this]

/-! ## `sanitize` -/

/-- C9: for every input, the result of `sanitize` holds no line feed and no
two consecutive spaces, neither starts nor ends with white space, and
`sanitize` applied to it gives it back unchanged. -/
theorem sanitize_normal_form (t : GoString) :
    '\n' ∉ sanitize t ∧
    ¬ [' ', ' '] <:+: sanitize t ∧
    (∀ c, (sanitize t).head? = some c → isSpace c = false) ∧
    (∀ c, (sanitize t).getLast? = some c → isSpace c = false) ∧
    sanitize (sanitize t) = sanitize t := by
  have hnl : '\n' ∉ sanitize t := by
    intro h
    have h1 := (TrimSpace_within _).subset h
    rcases mem_sanitizeLoop _ _ _ h1 with h2 | h2
    · rw [Replace_all _ _ _ (by decide)] at h2
      exact newline_not_mem_replace t h2
    · revert h2; decide
  have hsp : Contains (sanitize t) "  ".toList = false := by
    rw [Bool.eq_false_iff]
    intro h
    have h1 := ((Contains_iff _ _).mp h).trans (TrimSpace_within _)
    have h2 := sanitizeLoop_done _ _ (Nat.le_refl (Replace t "\n".toList " ".toList (-1)).length)
    rw [Bool.eq_false_iff] at h2
    exact h2 ((Contains_iff _ _).mpr h1)
  refine ⟨hnl, ?_, TrimSpace_head _, TrimSpace_last _, ?_⟩
  · intro h
    rw [Bool.eq_false_iff] at hsp
    exact hsp ((Contains_iff _ _).mpr h)
  · show TrimSpace (sanitizeLoop (Replace (sanitize t) "\n".toList " ".toList (-1)).length
      (Replace (sanitize t) "\n".toList " ".toList (-1))) = sanitize t
    rw [Replace_all _ _ _ (by decide), replace_newline_fixed _ hnl, sanitizeLoop_fixed _ _ hsp]
    exact TrimSpace_fixed _ (TrimSpace_head _) (TrimSpace_last _)

/-! ## The read loop -/

/-- What the two `strings.Trim` calls of the read loop make of a line that
ends in its only line feed: the text before the line feed without the
carriage returns at its end and without those at its start. -/
theorem Trim_line (body : GoString) (h : '\n' ∉ body) :
    Trim (Trim (body ++ ['\n']) "\n".toList) "\r".toList =
      (body.dropWhile (fun c => c == '\r')).rdropWhile (fun c => c == '\r') := by
  have h1 : Trim (body ++ ['\n']) "\n".toList = body := by
    cases body with
    | nil => decide
    | cons b bs =>
      have hb : b ≠ '\n' := fun e => h (e ▸ List.mem_cons_self _ _)
      have hne : (b :: bs ++ ['\n']).isEmpty = false := rfl
      simp only [Trim, hne, String.toList, List.isEmpty_cons, Bool.or_false, Bool.false_eq_true,
        if_false, List.cons_append]
      rw [List.dropWhile_cons_of_neg (by simpa using hb), ← List.cons_append,
        List.rdropWhile_concat_pos _ _ _ (by simp), List.rdropWhile_eq_self_iff]
      intro hne2
      have hmem := List.getLast_mem hne2
      have : (b :: bs).getLast hne2 ≠ '\n' := fun e => h (e ▸ hmem)
      simpa using this
  rw [h1]
  have hp : (fun c => decide (c ∈ "\r".toList)) = (fun c : Char => c == '\r') := by
    funext c; simp only [String.toList, List.mem_singleton]; rfl
  cases body with
  | nil => rfl
  | cons b bs =>
    simp only [Trim, List.isEmpty_cons, Bool.false_or]
    rw [if_neg (by decide), hp]

/-- C2: on the line `"\rPING :a\r\n"` the read loop passes `"PING :a"` to
`Handle`, while the line without its trailing line feed and carriage return
is `"\rPING :a"`: the carriage return at the start is removed too. -/
theorem readLoop_drops_leading_cr :
    handled (readLoop false (makeChan 0) [("\rPING :a\r\n".toList, none)]) = ["PING :a".toList] ∧
    "\rPING :a\r\n".toList.rdropWhile (fun c => c == '\n' || c == '\r') = "\rPING :a".toList := by
  decide

/-- C3: for every sequence of read results, the lines passed to `Handle` are
the lines read before the first failure, in order and once each (each
stripped as the loop strips it); the loop makes one more read than that,
the failing one, and ends by logging its error. -/
theorem readLoop_handles_until_failure (verb : Bool) (ch : Chan)
    (reads : List (GoString × Option GoError)) :
    handled (readLoop verb ch reads) =
      (reads.takeWhile (fun r => r.2.isNone)).map
        (fun r => Trim (Trim r.1 "\n".toList) "\r".toList) ∧
    readCalls (readLoop verb ch reads) = (reads.takeWhile (fun r => r.2.isNone)).length + 1 ∧
    (readLoop verb ch reads).getLast? =
      some (.logged (((reads.dropWhile (fun r => r.2.isNone)).head?.bind (fun r => r.2)).getD EOF)) := by
  induction reads with
  | nil => simp [readLoop, handled, readCalls]
  | cons r rest ih =>
    obtain ⟨line, err⟩ := r
    cases err with
    | some e => simp [readLoop, handled, readCalls]
    | none =>
      obtain ⟨ih1, ih2, ih3⟩ := ih
      have hne : readLoop verb ch rest ≠ [] := by
        cases rest with
        | nil => simp [readLoop]
        | cons r2 rest2 =>
          obtain ⟨l2, e2⟩ := r2
          cases e2 <;> simp [readLoop]
      refine ⟨?_, ?_, ?_⟩
      · cases verb <;> simp [readLoop, handled] <;> simpa [handled] using ih1
      · cases verb <;> simp [readLoop, readCalls, List.countP_cons] <;>
          simpa [readCalls] using ih2
      · cases verb <;>
          simp [readLoop, List.getLast?_cons_cons, List.getLast?_append, hne] <;>
          simp [List.getLast?_cons, ih3]

/-! ## The setup phase -/

theorem Join_eq_intercalate (elems : List GoString) (sep : GoString) :
    Join elems sep = sep.intercalate elems := by
  induction elems with
  | nil => simp [Join, List.intercalate]
  | cons e es ih =>
    cases es with
    | nil => simp [Join, List.intercalate]
    | cons e2 es2 =>
      simp only [Join, ih]
      simp [List.intercalate]

theorem welcomeHook_run (config : Config) (c : Conn) (m : Message) :
    welcomeHook config c m =
      ([.sleep 3000000000, .write ("JOIN ".toList ++ ",".toList.intercalate config.Chan)],
        .ret (c.send ("JOIN ".toList ++ ",".toList.intercalate config.Chan))) := by
  simp [welcomeHook, Client.Write, Sprintf, formatVerb, Join_eq_intercalate, Second]

theorem foldl_keeps_hooks {μ : Type} (fns : List (ModuleSet μ → ModuleSet μ))
    (h : ∀ fn ∈ fns, ∀ (ms : ModuleSet μ) (k : GoString),
      ms.client.hooks k <+: (fn ms).client.hooks k)
    (ms : ModuleSet μ) (k : GoString) :
    ms.client.hooks k <+: (fns.foldl (fun ms fn => fn ms) ms).client.hooks k := by
  induction fns generalizing ms with
  | nil => exact List.prefix_refl _
  | cons fn fns ih =>
    simp only [List.foldl_cons]
    exact (h fn (List.mem_cons_self _ _) ms k).trans
      (ih (fun g hg => h g (List.mem_cons_of_mem _ hg)) (fn ms))

/-- C1: in every environment whose module loading and `client.Setup` never
remove a hook, the first hook of the client that `setup` returns under key
`"001"` is the one `setup` registered, and for every channel list that hook
performs a sleep of three seconds and then exactly one write, of the line
`"JOIN "` followed by the channels joined with `","` in configuration order,
and returns the result of that write. -/
theorem setup_welcome_hook {μ : Type} (env : Env μ) (conn : Conn) (config : Config)
    (hkeep : env.KeepsHooks) :
    ∃ hook rest, (setup env conn config).1.hooks "001".toList = hook :: rest ∧
      ∀ (c : Conn) (m : Message), hook c m =
        ([.sleep (3 * Second), .write ("JOIN ".toList ++ ",".toList.intercalate config.Chan)],
          .ret (c.send ("JOIN ".toList ++ ",".toList.intercalate config.Chan))) := by
  obtain ⟨h1, h2, h3⟩ := hkeep
  have hp : [welcomeHook config] <+: (setup env conn config).1.hooks "001".toList := by
    have a1 := foldl_keeps_hooks env.moduleInits h1
      (NewModuleSet ((NewClient conn).CmdHook "001".toList (welcomeHook config)) config.Conf)
      "001".toList
    have a2 := h2 (env.moduleInits.foldl (fun ms fn => fn ms)
      (NewModuleSet ((NewClient conn).CmdHook "001".toList (welcomeHook config))
        config.Conf)).client config.Nick config.Name config.Host "001".toList
    have a3 := h3 (setupModuleSet env conn config).1 "001".toList
    have a0 : (NewModuleSet (μ := μ) ((NewClient conn).CmdHook "001".toList (welcomeHook config))
        config.Conf).client.hooks "001".toList = [welcomeHook config] := by
      simp [NewModuleSet, NewClient, Client.CmdHook]
    rw [a0] at a1
    exact (a1.trans a2).trans a3
  obtain ⟨rest, hrest⟩ := hp
  refine ⟨welcomeHook config, rest, by rw [← hrest]; rfl, ?_⟩
  intro c m
  rw [welcomeHook_run]
  rfl

/-- C1 at the channel list `["#a", "#b"]`: the hook sleeps and then writes
`"JOIN #a,#b"`. -/
theorem setup_welcome_hook_witness :
    sampleEnv.KeepsHooks ∧
    ∃ hook rest, (setup sampleEnv sampleConn sampleConfig).1.hooks "001".toList = hook :: rest ∧
      ∀ (c : Conn) (m : Message), hook c m =
        ([.sleep (3 * Second), .write "JOIN #a,#b".toList], .ret (c.send "JOIN #a,#b".toList)) :=
  have hk : sampleEnv.KeepsHooks :=
    ⟨fun _ h => absurd h (List.not_mem_nil _), fun _ _ _ _ _ => List.prefix_refl _,
      fun _ _ => List.prefix_refl _⟩
  ⟨hk, setup_welcome_hook sampleEnv sampleConn sampleConfig hk⟩

theorem readCalls_readLoop_pos (verb : Bool) (ch : Chan)
    (reads : List (GoString × Option GoError)) : 1 ≤ readCalls (readLoop verb ch reads) := by
  cases reads with
  | nil => simp [readLoop, readCalls]
  | cons r rest =>
    obtain ⟨line, err⟩ := r
    cases err <;> simp [readLoop, readCalls, List.countP_cons]

/-- C4: once the configuration is read and the connection is made, `setup`
returns the error of `LoadAll`; when `LoadAll` fails, `main` ends with that
error as a fatal one after the steps of `client.Setup`, with no line read
and `Handle` never called; when `LoadAll` succeeds, `setup` returns no error
and `main` goes on into the read loop. -/
theorem main_stops_on_LoadAll_failure {μ : Type} (env : Env μ) (config : Config)
    (cerr : Option GoError) (conn : Conn)
    (hcfg : env.readConfig env.conf = (config, cerr))
    (hnf : cerr.filter (fun e => !env.isNotExist e) = none)
    (hconn : connect env config = .ok conn) :
    (setup env conn config).2.2 = (env.LoadAll (setupModuleSet env conn config).1).2 ∧
    (∀ e, (env.LoadAll (setupModuleSet env conn config).1).2 = some e →
      main env = (setupModuleSet env conn config).2.map .step ++ [.fatal e] ∧
      readCalls (main env) = 0 ∧ handled (main env) = []) ∧
    ((env.LoadAll (setupModuleSet env conn config).1).2 = none →
      main env = (setupModuleSet env conn config).2.map .step ++
        readLoop env.verb (makeChan 0) conn.reads ++ [.closed] ∧
      1 ≤ readCalls (main env)) := by
  have hmain : main env =
      match setup env conn config with
      | (_, steps, some err) => steps.map .step ++ [.fatal err]
      | (_, steps, none) =>
        steps.map .step ++ readLoop env.verb (makeChan 0) conn.reads ++ [.closed] := by
    simp only [main, hcfg, hnf, hconn]
  have hsetup : setup env conn config =
      ((env.LoadAll (setupModuleSet env conn config).1).1.client,
        (setupModuleSet env conn config).2,
        (env.LoadAll (setupModuleSet env conn config).1).2) := rfl
  refine ⟨rfl, ?_, ?_⟩
  · intro e he
    have hm : main env = (setupModuleSet env conn config).2.map .step ++ [.fatal e] := by
      rw [hmain, hsetup, he]
    refine ⟨hm, ?_, ?_⟩
    · rw [hm]; simp [readCalls, List.countP_eq_zero]
    · rw [hm]; simp [handled, List.filterMap_eq_nil_iff]
  · intro he
    have hm : main env = (setupModuleSet env conn config).2.map .step ++
        readLoop env.verb (makeChan 0) conn.reads ++ [.closed] := by
      rw [hmain, hsetup, he]
    refine ⟨hm, ?_⟩
    rw [hm]
    have := readCalls_readLoop_pos env.verb (makeChan 0) conn.reads
    simp only [readCalls] at this ⊢
    simp only [List.countP_append]
    omega

/-- C4 where `LoadAll` fails with `error parsing regexp`: `main` does nothing
but end with that error; and where it succeeds: two lines are handled. -/
theorem main_stops_on_LoadAll_failure_witness :
    main failingEnv = [.fatal "error parsing regexp".toList] ∧
    handled (main sampleEnv) = ["PING :a".toList, "PING :b".toList] :=
  ⟨((main_stops_on_LoadAll_failure failingEnv sampleConfig none sampleConn rfl rfl rfl).2.1
      "error parsing regexp".toList rfl).1,
    by
      rw [((main_stops_on_LoadAll_failure sampleEnv sampleConfig none sampleConn
        rfl rfl rfl).2.2 rfl).1]
      decide⟩

/-! ## The error channel -/

theorem handleChans_readLoop (verb : Bool) (c : Chan) (reads : List (GoString × Option GoError))
    (ch : Chan) (h : ch ∈ handleChans (readLoop verb c reads)) : ch = c := by
  induction reads with
  | nil => simp [readLoop, handleChans] at h
  | cons r rest ih =>
    obtain ⟨line, err⟩ := r
    cases err with
    | some e => simp [readLoop, handleChans] at h
    | none =>
      cases verb <;> simp [readLoop, handleChans] at h <;> rcases h with h | h
      · exact h
      · exact ih (by simpa [handleChans] using h)
      · exact h
      · exact ih (by simpa [handleChans] using h)

/-- C5, as the code has it: in every run of `main`, a channel passed to
`Handle` is the one made by `make(chan error)`, of capacity zero and empty;
a send on it completes when the receiver is ready to take the value and
does not complete when it is not. -/
theorem errChan_unbuffered {μ : Type} (env : Env μ) (ch : Chan)
    (h : ch ∈ handleChans (main env)) :
    ch.cap = 0 ∧ ch.buf = [] ∧
      ∀ v : GoError, ch.send false v = none ∧ ch.send true v = some ch := by
  have hch : ch = makeChan 0 := by
    simp only [main] at h
    split at h
    · simp [handleChans] at h
    · split at h
      · simp [handleChans] at h
      · split at h
        · simp [handleChans, List.filterMap_append] at h
        · simp only [handleChans, List.filterMap_append, List.mem_append] at h
          rcases h with (h | h) | h
          · simp at h
          · exact handleChans_readLoop _ _ _ _ h
          · simp at h
  subst hch
  refine ⟨rfl, rfl, ?_⟩
  intro v
  simp [Chan.send, makeChan]

/-- C5 in a run that handles two lines: the channel passed has capacity zero. -/
theorem errChan_unbuffered_witness :
    makeChan 0 ∈ handleChans (main sampleEnv) ∧ (makeChan 0).cap = 0 :=
  ⟨by decide, (errChan_unbuffered sampleEnv (makeChan 0) (by decide)).1⟩

/-- C5 fails as stated: in a run of `main` that handles two lines, the channel
passed to `Handle` has capacity zero, not a capacity greater than zero, and
a send on it with no receiver ready does not complete. -/
theorem errChan_not_buffered :
    handleChans (main sampleEnv) = [makeChan 0, makeChan 0] ∧
    ¬ 0 < (makeChan 0).cap ∧
    (makeChan 0).send false "couldn't extract title".toList = none := by
  decide

/-! ## The url module -/

/-- C7: `Load` returns an error exactly when the configured `Regex` does not
compile; then the error is the compilation error and the module and the
client are as before (no hook registered, compiled pattern unchanged); when
the pattern compiles, `Load` stores it, returns no error, and appends exactly
one hook, `urlCmd`, to the list of key `"privmsg"`, leaving the list of every
other key as it was. -/
theorem Load_registers_privmsg {ρ : Type} (lib : Lib ρ) (m : Module ρ) (client : Client) :
    ((m.Load lib client).2.2 ≠ none ↔ ∃ err, lib.regexpCompile m.Regex = .error err) ∧
    (∀ err, lib.regexpCompile m.Regex = .error err →
      m.Load lib client = (m, client, some err)) ∧
    (∀ re, lib.regexpCompile m.Regex = .ok re →
      (m.Load lib client).1 = { m with re := some re } ∧
      (m.Load lib client).2.2 = none ∧
      (m.Load lib client).2.1.hooks "privmsg".toList =
        client.hooks "privmsg".toList ++ [urlCmd lib { m with re := some re }] ∧
      (∀ k, k ≠ "privmsg".toList → (m.Load lib client).2.1.hooks k = client.hooks k) ∧
      (m.Load lib client).2.1.conn = client.conn) := by
  cases hc : lib.regexpCompile m.Regex with
  | error err =>
    refine ⟨?_, ?_, ?_⟩
    · simp [Module.Load, hc]
    · intro e he; cases he; simp [Module.Load, hc]
    · intro re hre; cases hre
  | ok re =>
    refine ⟨?_, ?_, ?_⟩
    · simp [Module.Load, hc]
    · intro e he; cases he
    · intro re2 hre; cases hre
      refine ⟨?_, ?_, ?_, ?_, ?_⟩ <;> simp [Module.Load, hc, Client.CmdHook]

/-! ### The title pattern -/

theorem foldPrefix_length (lit s : GoString) (h : foldPrefix lit s = true) :
    lit.length ≤ s.length := by
  induction lit generalizing s with
  | nil => simp
  | cons a as ih =>
    cases s with
    | nil => simp [foldPrefix] at h
    | cons b bs =>
      simp only [foldPrefix, Bool.and_eq_true] at h
      have := ih bs h.2
      simp only [List.length_cons]
      omega

theorem foldPrefix_append (lit s t : GoString) (h : foldPrefix lit s = true) :
    foldPrefix lit (s ++ t) = true := by
  induction lit generalizing s with
  | nil => simp [foldPrefix]
  | cons a as ih =>
    cases s with
    | nil => simp [foldPrefix] at h
    | cons b bs =>
      simp only [foldPrefix, Bool.and_eq_true, List.cons_append] at h ⊢
      exact ⟨h.1, ih bs h.2⟩

theorem lastClose_bound (s : GoString) (j k : Nat) (h : lastClose s j = some k) :
    j ≤ k ∧ k + 8 ≤ j + s.length := by
  induction s generalizing j with
  | nil => simp [lastClose] at h
  | cons c cs ih =>
    simp only [lastClose] at h
    cases hr : lastClose cs (j + 1) with
    | some k2 =>
      rw [hr] at h
      simp only [Option.some.injEq] at h
      subst h
      have := ih (j + 1) hr
      simp only [List.length_cons]
      omega
    | none =>
      rw [hr] at h
      simp only at h
      split at h
      · rename_i hf
        simp only [Option.some.injEq] at h
        subst h
        have := foldPrefix_length _ _ hf
        simp only [String.toList, List.length_cons, List.length_nil] at this ⊢
        omega
      · cases h

theorem lastClose_found (s : GoString) (j i : Nat) (hi : i < s.length)
    (h : foldPrefix "</title>".toList (s.drop i) = true) :
    ∃ k, lastClose s j = some k ∧ j + i ≤ k := by
  induction s generalizing j i with
  | nil => simp at hi
  | cons c cs ih =>
    cases i with
    | zero =>
      simp only [List.drop_zero] at h
      simp only [lastClose]
      cases hr : lastClose cs (j + 1) with
      | some k2 =>
        refine ⟨k2, rfl, ?_⟩
        have := (lastClose_bound cs (j + 1) k2 hr).1
        omega
      | none =>
        refine ⟨j, ?_, by omega⟩
        simp only
        rw [if_pos h]
    | succ i =>
      simp only [List.drop_succ_cons] at h
      simp only [List.length_cons] at hi
      obtain ⟨k, hk, hle⟩ := ih (j + 1) i (by omega) h
      refine ⟨k, ?_, by omega⟩
      simp only [lastClose, hk]

theorem indexFrom_uniform (p s : GoString) :
    (∀ j, indexFrom p s j = -1) ∨ (∃ n : Nat, ∀ j : Nat, indexFrom p s j = ((j + n : Nat) : Int)) := by
  induction s with
  | nil =>
    cases p with
    | nil => right; exact ⟨0, fun j => by simp [indexFrom]⟩
    | cons a as => left; intro j; simp [indexFrom]
  | cons c cs ih =>
    by_cases hp : p.isPrefixOf (c :: cs) = true
    · right; exact ⟨0, fun j => by simp [indexFrom, hp]⟩
    · rcases ih with h | ⟨n, h⟩
      · left; intro j; simp only [indexFrom]; rw [if_neg hp]; exact h (j + 1)
      · right
        refine ⟨n + 1, fun j => ?_⟩
        simp only [indexFrom]
        rw [if_neg hp, h (j + 1)]
        congr 1
        omega

theorem indexFrom_append (p a b : GoString) (i : Nat) (h : 0 ≤ indexFrom p a i) :
    indexFrom p (a ++ b) i = indexFrom p a i := by
  induction a generalizing i with
  | nil =>
    cases p with
    | nil => cases b <;> simp [indexFrom]
    | cons x xs => simp [indexFrom] at h
  | cons c cs ih =>
    rw [List.cons_append]
    simp only [indexFrom] at h ⊢
    by_cases hp : p.isPrefixOf (c :: cs) = true
    · have hp2 : p.isPrefixOf (c :: (cs ++ b)) = true := by
        rw [List.isPrefixOf_iff_prefix] at hp ⊢
        exact hp.trans (List.prefix_append (c :: cs) b)
      rw [if_pos hp, if_pos hp2]
    · rw [if_neg hp] at h
      have hin : p <:+: cs := (indexFrom_nonneg_iff p cs (i + 1)).mp h
      have hp2 : ¬ p.isPrefixOf (c :: (cs ++ b)) = true := by
        intro hq
        apply hp
        rw [List.isPrefixOf_iff_prefix] at hq ⊢
        have hlen : p.length ≤ (c :: cs).length := by
          have := hin.length_le
          simp only [List.length_cons]
          omega
        exact List.prefix_of_prefix_length_le hq (List.prefix_append (c :: cs) b) hlen
      rw [if_neg hp, if_neg hp2]
      exact ih (i + 1) h

theorem ne_of_toLower (a b c : Char) (h : (b == a.toLower) = true)
    (hc : (b == c.toLower) = false) : (c == a) = false := by
  rw [beq_eq_false_iff_ne]
  rintro rfl
  rw [h] at hc
  cases hc

theorem indexFrom_skip_open (opn x : GoString) (hlen : opn.length = 7)
    (hf : foldPrefix "<title>".toList opn = true) (i : Nat) :
    indexFrom "</title>".toList (opn ++ x) i = indexFrom "</title>".toList x (i + 7) := by
  rcases opn with _ | ⟨a0, _ | ⟨a1, _ | ⟨a2, _ | ⟨a3, _ | ⟨a4, _ | ⟨a5, _ | ⟨a6, _ | ⟨a7, t⟩⟩⟩⟩⟩⟩⟩⟩ <;>
    simp at hlen
  simp only [String.toList, foldPrefix, Bool.and_eq_true] at hf
  obtain ⟨-, h1, h2, h3, h4, h5, h6, -⟩ := hf
  have e0 := ne_of_toLower a1 't' '/' h1 (by decide)
  have e1 := ne_of_toLower a1 't' '<' h1 (by decide)
  have e2 := ne_of_toLower a2 'i' '<' h2 (by decide)
  have e3 := ne_of_toLower a3 't' '<' h3 (by decide)
  have e4 := ne_of_toLower a4 'l' '<' h4 (by decide)
  have e5 := ne_of_toLower a5 'e' '<' h5 (by decide)
  have e6 := ne_of_toLower a6 '>' '<' h6 (by decide)
  simp only [String.toList, List.cons_append, List.nil_append, indexFrom, List.isPrefixOf,
    e0, e1, e2, e3, e4, e5, e6, Bool.and_false, Bool.false_and, Bool.false_eq_true, if_false]
  rfl

theorem titleFind_skip (pre s : GoString)
    (h : ∀ i, i < pre.length → foldPrefix "<title>".toList ((pre ++ s).drop i) = false) :
    titleFind (pre ++ s) = titleFind s := by
  induction pre with
  | nil => rfl
  | cons p ps ih =>
    have h0 := h 0 (by simp)
    simp only [List.drop_zero, List.cons_append] at h0
    rw [List.cons_append]
    simp only [titleFind, matchAt]
    rw [if_neg (by rw [h0]; decide)]
    apply ih
    intro i hi
    have := h (i + 1) (by simp only [List.length_cons]; omega)
    simpa using this

theorem matchAt_title (opn inner post : GoString) (hlen : opn.length = 7)
    (hf : foldPrefix "<title>".toList opn = true) (hinner : inner ≠ []) :
    ∃ more, matchAt (opn ++ (inner ++ ("</title>".toList ++ post))) =
      some (opn ++ (inner ++ ("</title>".toList ++ more))) := by
  obtain ⟨x, xs, rfl⟩ := List.exists_cons_of_ne_nil hinner
  have hdrop : (opn ++ (x :: xs ++ ("</title>".toList ++ post))).drop 7 =
      x :: (xs ++ ("</title>".toList ++ post)) := by
    rw [← hlen, List.drop_left]; rfl
  have hfound := lastClose_found (xs ++ ("</title>".toList ++ post)) 1 xs.length
    (by simp [String.toList]) (by rw [List.drop_left]; exact foldPrefix_append _ _ _ rfl)
  obtain ⟨k, hk, hle⟩ := hfound
  have hb := (lastClose_bound _ _ _ hk).2
  refine ⟨post.take (k - (1 + xs.length)), ?_⟩
  unfold matchAt
  rw [if_pos (foldPrefix_append _ _ _ hf), hdrop]
  simp only [hk, Option.map_some', Option.some.injEq]
  have e : opn ++ (x :: xs ++ ("</title>".toList ++ post)) =
      (opn ++ (x :: xs ++ "</title>".toList)) ++ post := by simp
  have hl : (opn ++ (x :: xs ++ "</title>".toList)).length = 7 + (1 + xs.length) + 8 := by
    simp [hlen, String.toList]; omega
  rw [e, List.take_append_eq_append_take, List.take_of_length_le (by rw [hl]; omega), hl]
  have : 7 + k + 8 - (7 + (1 + xs.length) + 8) = k - (1 + xs.length) := by omega
  rw [this]
  simp

theorem index_title (opn inner more : GoString) (hlen : opn.length = 7)
    (hf : foldPrefix "<title>".toList opn = true)
    (hclose : Index (inner ++ "</title>".toList) "</title>".toList = (inner.length : Int)) :
    Index (opn ++ (inner ++ ("</title>".toList ++ more))) "</title>".toList =
      ((7 + inner.length : Nat) : Int) := by
  unfold Index at hclose ⊢
  rw [indexFrom_skip_open _ _ hlen hf, ← List.append_assoc]
  have h7 : indexFrom "</title>".toList (inner ++ "</title>".toList) (0 + 7) =
      ((7 + inner.length : Nat) : Int) := by
    rcases indexFrom_uniform "</title>".toList (inner ++ "</title>".toList) with h | ⟨n, h⟩
    · rw [h 0] at hclose
      omega
    · rw [h 0] at hclose
      rw [h (0 + 7)]
      have : n = inner.length := by omega
      subst this
      congr 1
  rw [indexFrom_append _ _ _ _ (by rw [h7]; exact Int.ofNat_nonneg _), h7]

theorem slice_title (opn inner tail : GoString) (hlen : opn.length = 7) :
    slice (opn ++ (inner ++ tail)) (7 : Nat) ((7 + inner.length : Nat) : Int) = .ret inner := by
  unfold slice
  have hl : (opn ++ (inner ++ tail)).length = 7 + inner.length + tail.length := by
    simp [hlen]; omega
  rw [if_pos (by rw [hl]; omega)]
  simp only [Int.toNat_ofNat]
  have e : opn ++ (inner ++ tail) = (opn ++ inner) ++ tail := by simp
  rw [e, List.take_left' (by simp [hlen]), ← hlen, List.drop_left]

theorem extractTitle_title {ρ : Type} (lib : Lib ρ) (pre opn inner post : GoString)
    (hfirst : ∀ i, i < pre.length →
      foldPrefix "<title>".toList
        ((pre ++ (opn ++ (inner ++ ("</title>".toList ++ post)))).drop i) = false)
    (hlen : opn.length = 7) (hf : foldPrefix "<title>".toList opn = true)
    (hinner : inner ≠ [])
    (hclose : Index (inner ++ "</title>".toList) "</title>".toList = (inner.length : Int)) :
    extractTitle lib (pre ++ (opn ++ (inner ++ ("</title>".toList ++ post))), none) =
      if (sanitize (UnescapeString lib inner)).length ≤ 0 then .ret ([], some extractError)
      else .ret (sanitize (UnescapeString lib inner), none) := by
  obtain ⟨more, hm⟩ := matchAt_title opn inner post hlen hf hinner
  have hfind : titleFind (pre ++ (opn ++ (inner ++ ("</title>".toList ++ post)))) =
      opn ++ (inner ++ ("</title>".toList ++ more)) := by
    rw [titleFind_skip _ _ hfirst]
    obtain ⟨o, os, ho⟩ : ∃ o os, opn = o :: os := by
      cases opn with
      | nil => simp at hlen
      | cons o os => exact ⟨o, os, rfl⟩
    rw [ho] at hm ⊢
    rw [List.cons_append] at hm ⊢
    simp only [titleFind, hm]
  have hpos : ¬ (opn ++ (inner ++ ("</title>".toList ++ more))).length ≤ 0 := by
    simp [hlen]
  simp only [extractTitle, hfind, ne_eq, not_true_eq_false, if_false]
  rw [if_neg hpos, index_title _ _ _ hlen hf hclose]
  have h7 : (("<title>".toList.length : Nat) : Int) = ((7 : Nat) : Int) := rfl
  rw [h7, slice_title _ _ _ hlen]

theorem Sprintf_type (mtype : GoString) :
    Sprintf "URL -- Type: %s".toList [.str mtype] = "URL -- Type: ".toList ++ mtype := by
  simp [Sprintf, formatVerb]

theorem Sprintf_size (info csize : GoString) :
    Sprintf "%s. Size: %s bytes".toList [.str info, .str csize] =
      info ++ (". Size: ".toList ++ csize ++ " bytes".toList) := by
  simp [Sprintf, formatVerb]

theorem Sprintf_title (info title : GoString) :
    Sprintf "%s. Title: %s".toList [.str info, .str title] =
      info ++ (". Title: ".toList ++ title) := by
  simp [Sprintf, formatVerb]

/-- C6, as the code has it: for a response whose `Content-Type` is present and
parses without error to `text/html`, and whose body is read without error
and holds, as its first opening `<title>` tag in any case, a tag followed by
a text of at least one character and a closing tag written in lower case
(the first lower-case `</title>` after the opening tag), `infoString`
returns without error the type, then the size when `Content-Length` is
present, then `". Title: "` and that text unescaped and sanitized when this
is not empty, and no title part when it is empty. -/
theorem infoString_title {ρ : Type} (lib : Lib ρ) (resp : Response)
    (pre opn inner post : GoString)
    (hct : resp.Header "Content-Type".toList ≠ [])
    (hmt : lib.parseMediaType (resp.Header "Content-Type".toList) = ("text/html".toList, none))
    (hbody : resp.Body = (pre ++ opn ++ inner ++ "</title>".toList ++ post, none))
    (hfirst : ∀ i, i < pre.length →
      foldPrefix "<title>".toList ((pre ++ opn ++ inner ++ "</title>".toList ++ post).drop i) = false)
    (hlen : opn.length = 7) (hf : foldPrefix "<title>".toList opn = true)
    (hinner : inner ≠ [])
    (hclose : Index (inner ++ "</title>".toList) "</title>".toList = (inner.length : Int)) :
    infoString lib resp = .ret
      ("URL -- Type: text/html".toList ++
        (if resp.Header "Content-Length".toList = [] then []
          else ". Size: ".toList ++ resp.Header "Content-Length".toList ++ " bytes".toList) ++
        (if sanitize (UnescapeString lib inner) = [] then []
          else ". Title: ".toList ++ sanitize (UnescapeString lib inner)), none) := by
  have hassoc : pre ++ opn ++ inner ++ "</title>".toList ++ post =
      pre ++ (opn ++ (inner ++ ("</title>".toList ++ post))) := by
    simp only [List.append_assoc]
  rw [hassoc] at hbody hfirst
  have hx := extractTitle_title lib pre opn inner post hfirst hlen hf hinner hclose
  have hct2 : ¬ (resp.Header "Content-Type".toList).length ≤ 0 := by
    intro h
    exact hct (List.length_eq_zero.mp (Nat.le_zero.mp h))
  unfold infoString
  simp only [hmt, if_neg hct2, ne_eq, not_true_eq_false, if_false, if_true, hbody, hx,
    Sprintf_type, Sprintf_size, Sprintf_title]
  generalize resp.Header "Content-Length".toList = csize
  generalize sanitize (UnescapeString lib inner) = title
  cases title <;> cases csize <;> simp

/-- C6 at the body `<html><TITLE>a  b</title></html>`: the info string is
`URL -- Type: text/html. Title: a b`. -/
theorem infoString_title_witness :
    infoString sampleLib (htmlResponse "<html><TITLE>a  b</title></html>".toList) =
      .ret ("URL -- Type: text/html. Title: a b".toList, none) :=
  infoString_title sampleLib (htmlResponse "<html><TITLE>a  b</title></html>".toList)
    "<html>".toList "<TITLE>".toList "a  b".toList "</html>".toList
    (by decide) rfl rfl (by decide) rfl rfl (by decide) (by decide)

/-- C6 fails as stated: for the `text/html` body `<title> </title>`, whose
title element holds one character, `infoString` succeeds with the info
string `URL -- Type: text/html`, which holds no `". Title: "`. -/
theorem infoString_blank_title :
    infoString sampleLib (htmlResponse "<title> </title>".toList) =
      .ret ("URL -- Type: text/html".toList, none) ∧
    Contains "URL -- Type: text/html".toList ". Title: ".toList = false := by
  decide

/-- C8: for the body `<html><head><TITLE>Example</TITLE></head></html>` the
pattern matches `<TITLE>Example</TITLE>`, `strings.Index` finds no
`</title>` in the match and returns `-1`, and the slice expression panics:
neither `extractTitle` nor `infoString` returns. -/
theorem extractTitle_panics_on_upper_case_tag :
    titleFind "<html><head><TITLE>Example</TITLE></head></html>".toList =
      "<TITLE>Example</TITLE>".toList ∧
    Index "<TITLE>Example</TITLE>".toList "</title>".toList = -1 ∧
    extractTitle sampleLib ("<html><head><TITLE>Example</TITLE></head></html>".toList, none) =
      .panic "slice bounds out of range".toList ∧
    infoString sampleLib
        (htmlResponse "<html><head><TITLE>Example</TITLE></head></html>".toList) =
      .panic "slice bounds out of range".toList := by
  decide

end Marvin
